import Mathlib

/-!
Verification of `carnaval/nbt/NBT_Core.py`: the doubly-linked list
`dLinkedList` (with its inner `Node` class) and the `NBTerror` coded-error
registry.

The list is embedded with an explicit heap: nodes are identified by natural
numbers, and a state carries the `Head`/`Tail` references of the list object
together with a total map from node ids to node records (`Next`, `Prev`,
`Data`).  Each Python statement of `insert`/`remove` becomes one heap update,
in source order, reading fields from the current intermediate state exactly
as the Python attribute accesses do.
-/

namespace dLinkedList

/-- A `dLinkedList.Node`: `Next` and `Prev` are references to other nodes
(`none` plays Python's `None`), `Data` is the payload. -/
structure Node (α : Type) where
  Next : Option Nat
  Prev : Option Nat
  Data : α
  deriving Repr, DecidableEq

/-- The mutable state seen by `dLinkedList` methods: the list object's
`Head` and `Tail` attributes plus the heap of all node objects. -/
structure DState (α : Type) where
  Head : Option Nat
  Tail : Option Nat
  mem  : Nat → Node α

/-- `i.Next` read in state `s`. -/
def nextOf (s : DState α) (i : Nat) : Option Nat := (s.mem i).Next

/-- `i.Prev` read in state `s`. -/
def prevOf (s : DState α) (i : Nat) : Option Nat := (s.mem i).Prev

/-- `i.Data` read in state `s`. -/
def dataOf (s : DState α) (i : Nat) : α := (s.mem i).Data

/-- The assignment `i.Next = v`. -/
def setNext (s : DState α) (i : Nat) (v : Option Nat) : DState α :=
  { s with mem := fun j => if j = i then { s.mem j with Next := v } else s.mem j }

/-- The assignment `i.Prev = v`. -/
def setPrev (s : DState α) (i : Nat) (v : Option Nat) : DState α :=
  { s with mem := fun j => if j = i then { s.mem j with Prev := v } else s.mem j }

/-- The assignment `self.Head = v`. -/
def setHead (s : DState α) (v : Option Nat) : DState α := { s with Head := v }

/-- The assignment `self.Tail = v`. -/
def setTail (s : DState α) (v : Option Nat) : DState α := { s with Tail := v }

/-- `dLinkedList.__init__`: `Head` and `Tail` are `None`.  The heap is
initialized with inert nodes carrying a default payload `d0`. -/
def emptyState (d0 : α) : DState α :=
  { Head := none, Tail := none, mem := fun _ => ⟨none, none, d0⟩ }

/-- `dLinkedList.Node.__init__`: creates node `i` with `Next = Prev = None`
and payload `d`. -/
def newNode (s : DState α) (i : Nat) (d : α) : DState α :=
  { s with mem := fun j => if j = i then ⟨none, none, d⟩ else s.mem j }

/-- `dLinkedList.insert( newNode, after )`, translated statement by
statement from the source:
```
if( after ):
  newNode.Next = after.Next
  after.Next   = newNode
else:
  newNode.Next = self.Head
  self.Head    = newNode
newNode.Prev = after
if( newNode.Next ):
  newNode.Next.Prev = newNode
else:
  self.Tail = newNode
``` -/
def insert (s : DState α) (x : Nat) (after : Option Nat) : DState α :=
  let s1 : DState α :=
    match after with
    | some a =>
        let sA := setNext s x (nextOf s a)
        setNext sA a (some x)
    | none =>
        let sA := setNext s x s.Head
        setHead sA (some x)
  let s2 := setPrev s1 x after
  match nextOf s2 x with
  | some nxt => setPrev s2 nxt (some x)
  | none => setTail s2 (some x)

/-- `dLinkedList.remove( oldNode )`, translated statement by statement:
```
if( oldNode.Prev is None ):
  self.Head = oldNode.Next
else:
  oldNode.Prev.Next = oldNode.Next
if( oldNode.Next is None ):
  self.Tail = oldNode.Prev
else:
  oldNode.Next.Prev = oldNode.Prev
``` -/
def remove (s : DState α) (x : Nat) : DState α :=
  let s1 : DState α :=
    match prevOf s x with
    | none => setHead s (nextOf s x)
    | some p => setNext s p (nextOf s x)
  match nextOf s1 x with
  | none => setTail s1 (prevOf s1 x)
  | some m => setPrev s1 m (prevOf s1 x)

/-- The traversal of `dLinkedList.elements()` from a given node reference,
with fuel bounding the number of steps (the Python generator would not
terminate on a cyclic heap). -/
def elemsAux (s : DState α) : Nat → Option Nat → List α
  | 0, _ => []
  | _ + 1, none => []
  | fuel + 1, some i => dataOf s i :: elemsAux s fuel (nextOf s i)

/-- `dLinkedList.elements()`: the payloads obtained by starting at `Head`
and following `Next`. -/
def elements (s : DState α) (fuel : Nat) : List α := elemsAux s fuel s.Head

/-- The backward traversal: payloads obtained by following `Prev`. -/
def backAux (s : DState α) : Nat → Option Nat → List α
  | 0, _ => []
  | _ + 1, none => []
  | fuel + 1, some i => dataOf s i :: backAux s fuel (prevOf s i)

/-- Payloads obtained by starting at `Tail` and following `Prev`. -/
def backwards (s : DState α) (fuel : Nat) : List α := backAux s fuel s.Tail

/-! ### The representation invariant -/

/-- First element of `l` as a reference, or the fallback `n`. -/
def firstO (l : List Nat) (n : Option Nat) : Option Nat :=
  match l with
  | [] => n
  | j :: _ => some j

/-- Last element of `l` as a reference, or the fallback `p`. -/
def lastO (p : Option Nat) (l : List Nat) : Option Nat :=
  match l with
  | [] => p
  | i :: t => lastO (some i) t

/-- `seg s p l n`: the node ids `l` form a consecutive doubly-linked
segment in `s`: the first node's `Prev` is `p`, each node's `Next` is the
following node, and the last node's `Next` is `n`. -/
def seg (s : DState α) : Option Nat → List Nat → Option Nat → Bool
  | _, [], _ => true
  | p, i :: rest, n =>
      (prevOf s i == p) && (nextOf s i == firstO rest n) && seg s (some i) rest n

/-- The list state represents exactly the sequence of node ids `ids`:
`Head` and `Tail` point at its ends and the ids form a well-linked,
duplicate-free chain. -/
def repOK (s : DState α) (ids : List Nat) : Prop :=
  s.Head = firstO ids none ∧ s.Tail = lastO none ids ∧
    seg s none ids none = true ∧ ids.Nodup

instance (s : DState α) (ids : List Nat) : Decidable (repOK s ids) := by
  unfold repOK; infer_instance

/-- The valid call sequences of the list API: starting from an empty list,
insert a freshly created node at the head, insert a freshly created node
after a node `a` already in the list, or remove a node that is currently a
member.  `ids` tracks the node ids in list order. -/
inductive Reachable (d0 : α) : DState α → List Nat → Prop
  | empty : Reachable d0 (emptyState d0) []
  | insertHead (s : DState α) (ids : List Nat) (x : Nat) (d : α) :
      Reachable d0 s ids → x ∉ ids →
      Reachable d0 (insert (newNode s x d) x none) (x :: ids)
  | insertAfter (s : DState α) (l1 l2 : List Nat) (a x : Nat) (d : α) :
      Reachable d0 s (l1 ++ a :: l2) → x ∉ l1 ++ a :: l2 →
      Reachable d0 (insert (newNode s x d) x (some a)) (l1 ++ a :: x :: l2)
  | removeNode (s : DState α) (l1 l2 : List Nat) (x : Nat) :
      Reachable d0 s (l1 ++ x :: l2) →
      Reachable d0 (remove s x) (l1 ++ l2)

/-! ### The states of the `dLinkedList` doctest-style scenario: payloads
"a","b","c","d","e" inserted at the head in that order, then removal of the
head, the tail, and the middle node. -/

def exList0 : DState String := emptyState ""

def exList1 : DState String := insert (newNode exList0 0 "a") 0 none

def exList2 : DState String := insert (newNode exList1 1 "b") 1 none

def exList3 : DState String := insert (newNode exList2 2 "c") 2 none

def exList4 : DState String := insert (newNode exList3 3 "d") 3 none

def exList5 : DState String := insert (newNode exList4 4 "e") 4 none

def exList6 : DState String := remove exList5 4

def exList7 : DState String := remove exList6 0

def exList8 : DState String := remove exList7 2

end dLinkedList

namespace NBTerror

/-- `NBTerror.error_dict` from the source: the map from NBT error codes to
descriptive names.  Codes are integers. -/
def error_dict : List (Int × String) :=
  [(1000, "Warning"),
   (1001, "NBT Syntax Error"),
   (1002, "NBT Semantic Error"),
   (1003, "Label String Pointer"),
   (1004, "No Label String Pointer"),
   (1005, "Malformed Message")]

/-- Lookup of a code in the registry (dictionary access keyed by code). -/
def lookupCode : List (Int × String) → Int → Option String
  | [], _ => none
  | (c, lbl) :: t, code => if code = c then some lbl else lookupCode t code

/-- Modelled from the spec: `errStr` (the `describe(code)` operation) of the
`CodedError` base class in `common/ErrorCodeExceptions.py`, which is not part
of this repository slice.  Per the spec it returns the label of a registered
code and fails with the undefined-code error for codes outside the
registered set. -/
def errStr (code : Int) : Except String String :=
  match lookupCode error_dict code with
  | some lbl => Except.ok lbl
  | none => Except.error "Undefined error code"

/-- Minimum code of a registry, folded over the entries. -/
def codeMin : List (Int × String) → Int → Int
  | [], acc => acc
  | (c, _) :: t, acc => codeMin t (min acc c)

/-- Maximum code of a registry, folded over the entries. -/
def codeMax : List (Int × String) → Int → Int
  | [], acc => acc
  | (c, _) :: t, acc => codeMax t (max acc c)

/-- Modelled from the spec: `errRange` (the `range()` operation) of the
`CodedError` base class, not part of this slice: the inclusive minimum and
maximum of the registered codes. -/
def errRange : Int × Int :=
  match error_dict with
  | [] => (0, 0)
  | (c, _) :: t => (codeMin t c, codeMax t c)

/-- Modelled from the spec: construction of a concrete `NBTerror` value from
a code and an optional free-text detail string, and its textual
representation (`CodedError.__str__`, not part of this slice): a registered
code with detail renders as `"<code>: <label>; <detail>."` and without
detail as `"<code>: <label>."`; an unregistered code fails with the
undefined-code error. -/
def render (code : Int) (detail : Option String) : Except String String :=
  match lookupCode error_dict code with
  | none => Except.error "Undefined error code"
  | some lbl =>
      match detail with
      | some d => Except.ok (toString code ++ ": " ++ lbl ++ "; " ++ d ++ ".")
      | none => Except.ok (toString code ++ ": " ++ lbl ++ ".")

end NBTerror

namespace dLinkedList

/-! ### Field-access lemmas for the heap operations -/

@[simp] theorem Head_setNext (s : DState α) (i : Nat) (v : Option Nat) :
    (setNext s i v).Head = s.Head := rfl

@[simp] theorem Tail_setNext (s : DState α) (i : Nat) (v : Option Nat) :
    (setNext s i v).Tail = s.Tail := rfl

@[simp] theorem nextOf_setNext (s : DState α) (i j : Nat) (v : Option Nat) :
    nextOf (setNext s i v) j = if j = i then v else nextOf s j := by
  unfold nextOf setNext; dsimp only; split <;> rfl

@[simp] theorem prevOf_setNext (s : DState α) (i j : Nat) (v : Option Nat) :
    prevOf (setNext s i v) j = prevOf s j := by
  unfold prevOf setNext; dsimp only; split <;> rfl

@[simp] theorem dataOf_setNext (s : DState α) (i j : Nat) (v : Option Nat) :
    dataOf (setNext s i v) j = dataOf s j := by
  unfold dataOf setNext; dsimp only; split <;> rfl

@[simp] theorem Head_setPrev (s : DState α) (i : Nat) (v : Option Nat) :
    (setPrev s i v).Head = s.Head := rfl

@[simp] theorem Tail_setPrev (s : DState α) (i : Nat) (v : Option Nat) :
    (setPrev s i v).Tail = s.Tail := rfl

@[simp] theorem prevOf_setPrev (s : DState α) (i j : Nat) (v : Option Nat) :
    prevOf (setPrev s i v) j = if j = i then v else prevOf s j := by
  unfold prevOf setPrev; dsimp only; split <;> rfl

@[simp] theorem nextOf_setPrev (s : DState α) (i j : Nat) (v : Option Nat) :
    nextOf (setPrev s i v) j = nextOf s j := by
  unfold nextOf setPrev; dsimp only; split <;> rfl

@[simp] theorem dataOf_setPrev (s : DState α) (i j : Nat) (v : Option Nat) :
    dataOf (setPrev s i v) j = dataOf s j := by
  unfold dataOf setPrev; dsimp only; split <;> rfl

@[simp] theorem Head_newNode (s : DState α) (i : Nat) (d : α) :
    (newNode s i d).Head = s.Head := rfl

@[simp] theorem Tail_newNode (s : DState α) (i : Nat) (d : α) :
    (newNode s i d).Tail = s.Tail := rfl

@[simp] theorem nextOf_newNode (s : DState α) (i j : Nat) (d : α) :
    nextOf (newNode s i d) j = if j = i then none else nextOf s j := by
  unfold nextOf newNode; dsimp only; split <;> rfl

@[simp] theorem prevOf_newNode (s : DState α) (i j : Nat) (d : α) :
    prevOf (newNode s i d) j = if j = i then none else prevOf s j := by
  unfold prevOf newNode; dsimp only; split <;> rfl

@[simp] theorem dataOf_newNode (s : DState α) (i j : Nat) (d : α) :
    dataOf (newNode s i d) j = if j = i then d else dataOf s j := by
  unfold dataOf newNode; dsimp only; split <;> rfl

theorem mem_setNext_ne (s : DState α) (i j : Nat) (v : Option Nat) (h : j ≠ i) :
    (setNext s i v).mem j = s.mem j := by
  unfold setNext; dsimp only; rw [if_neg h]

theorem mem_setPrev_ne (s : DState α) (i j : Nat) (v : Option Nat) (h : j ≠ i) :
    (setPrev s i v).mem j = s.mem j := by
  unfold setPrev; dsimp only; rw [if_neg h]

theorem mem_newNode_ne (s : DState α) (i j : Nat) (d : α) (h : j ≠ i) :
    (newNode s i d).mem j = s.mem j := by
  unfold newNode; dsimp only; rw [if_neg h]

/-! ### `firstO`, `lastO`, `seg` structure -/

@[simp] theorem firstO_nil (n : Option Nat) : firstO [] n = n := rfl

@[simp] theorem firstO_cons (i : Nat) (l : List Nat) (n : Option Nat) :
    firstO (i :: l) n = some i := rfl

theorem firstO_append (l1 l2 : List Nat) (n : Option Nat) :
    firstO (l1 ++ l2) n = firstO l1 (firstO l2 n) := by
  cases l1 <;> rfl

@[simp] theorem lastO_nil (p : Option Nat) : lastO p [] = p := rfl

theorem lastO_cons (p : Option Nat) (i : Nat) (l : List Nat) :
    lastO p (i :: l) = lastO (some i) l := rfl

@[simp] theorem seg_nil (s : DState α) (p n : Option Nat) : seg s p [] n = true := rfl

theorem seg_cons (s : DState α) (p n : Option Nat) (i : Nat) (rest : List Nat) :
    seg s p (i :: rest) n =
      ((prevOf s i == p) && (nextOf s i == firstO rest n) && seg s (some i) rest n) := rfl

theorem seg_congr (s' s : DState α) (l : List Nat) (p n : Option Nat)
    (hp : ∀ i ∈ l, prevOf s' i = prevOf s i)
    (hn : ∀ i ∈ l, nextOf s' i = nextOf s i) :
    seg s' p l n = seg s p l n := by
  induction l generalizing p with
  | nil => rfl
  | cons i rest ih =>
      rw [seg_cons, seg_cons, hp i (List.mem_cons_self i rest),
        hn i (List.mem_cons_self i rest),
        ih (some i) (fun j hj => hp j (List.mem_cons_of_mem i hj))
          (fun j hj => hn j (List.mem_cons_of_mem i hj))]

theorem seg_append (s : DState α) (l1 l2 : List Nat) (p n : Option Nat) :
    seg s p (l1 ++ l2) n =
      (seg s p l1 (firstO l2 n) && seg s (lastO p l1) l2 n) := by
  induction l1 generalizing p with
  | nil => simp
  | cons i l1' ih =>
      rw [List.cons_append, seg_cons, seg_cons, firstO_append, ih (some i),
        lastO_cons]
      cases prevOf s i == p <;> cases nextOf s i == firstO l1' (firstO l2 n) <;> simp

@[simp] theorem Head_setHead (s : DState α) (v : Option Nat) :
    (setHead s v).Head = v := rfl

@[simp] theorem Tail_setHead (s : DState α) (v : Option Nat) :
    (setHead s v).Tail = s.Tail := rfl

@[simp] theorem nextOf_setHead (s : DState α) (v : Option Nat) (j : Nat) :
    nextOf (setHead s v) j = nextOf s j := rfl

@[simp] theorem prevOf_setHead (s : DState α) (v : Option Nat) (j : Nat) :
    prevOf (setHead s v) j = prevOf s j := rfl

@[simp] theorem dataOf_setHead (s : DState α) (v : Option Nat) (j : Nat) :
    dataOf (setHead s v) j = dataOf s j := rfl

@[simp] theorem mem_setHead (s : DState α) (v : Option Nat) (j : Nat) :
    (setHead s v).mem j = s.mem j := rfl

@[simp] theorem Head_setTail (s : DState α) (v : Option Nat) :
    (setTail s v).Head = s.Head := rfl

@[simp] theorem Tail_setTail (s : DState α) (v : Option Nat) :
    (setTail s v).Tail = v := rfl

@[simp] theorem nextOf_setTail (s : DState α) (v : Option Nat) (j : Nat) :
    nextOf (setTail s v) j = nextOf s j := rfl

@[simp] theorem prevOf_setTail (s : DState α) (v : Option Nat) (j : Nat) :
    prevOf (setTail s v) j = prevOf s j := rfl

@[simp] theorem dataOf_setTail (s : DState α) (v : Option Nat) (j : Nat) :
    dataOf (setTail s v) j = dataOf s j := rfl

@[simp] theorem mem_setTail (s : DState α) (v : Option Nat) (j : Nat) :
    (setTail s v).mem j = s.mem j := rfl

/-! ### Branch-level unfoldings of `insert` and `remove` -/

theorem insert_none_of_head_none (s : DState α) (x : Nat) (h : s.Head = none) :
    insert s x none =
      setTail (setPrev (setHead (setNext s x s.Head) (some x)) x none) (some x) := by
  unfold insert; dsimp only
  have hd : nextOf (setPrev (setHead (setNext s x s.Head) (some x)) x none) x
      = s.Head := by simp
  rw [hd, h]

theorem insert_none_of_head_some (s : DState α) (x h' : Nat) (h : s.Head = some h') :
    insert s x none =
      setPrev (setPrev (setHead (setNext s x s.Head) (some x)) x none) h' (some x) := by
  unfold insert; dsimp only
  have hd : nextOf (setPrev (setHead (setNext s x s.Head) (some x)) x none) x
      = s.Head := by simp
  rw [hd, h]

theorem insert_some_of_next_none (s : DState α) (x a : Nat) (hxa : x ≠ a)
    (h : nextOf s a = none) :
    insert s x (some a) =
      setTail (setPrev (setNext (setNext s x (nextOf s a)) a (some x)) x (some a))
        (some x) := by
  unfold insert; dsimp only
  have hd : nextOf (setPrev (setNext (setNext s x (nextOf s a)) a (some x)) x (some a)) x
      = nextOf s a := by simp [hxa]
  rw [hd, h]

theorem insert_some_of_next_some (s : DState α) (x a m : Nat) (hxa : x ≠ a)
    (h : nextOf s a = some m) :
    insert s x (some a) =
      setPrev (setPrev (setNext (setNext s x (nextOf s a)) a (some x)) x (some a))
        m (some x) := by
  unfold insert; dsimp only
  have hd : nextOf (setPrev (setNext (setNext s x (nextOf s a)) a (some x)) x (some a)) x
      = nextOf s a := by simp [hxa]
  rw [hd, h]

theorem remove_of_none_none (s : DState α) (x : Nat)
    (h1 : prevOf s x = none) (h2 : nextOf s x = none) :
    remove s x = setTail (setHead s (nextOf s x)) none := by
  unfold remove; dsimp only
  rw [h1]; dsimp only
  have hd : nextOf (setHead s (nextOf s x)) x = nextOf s x := by simp
  rw [hd, h2]; dsimp only
  simp [h1]

theorem remove_of_none_some (s : DState α) (x m : Nat)
    (h1 : prevOf s x = none) (h2 : nextOf s x = some m) :
    remove s x = setPrev (setHead s (nextOf s x)) m none := by
  unfold remove; dsimp only
  rw [h1]; dsimp only
  have hd : nextOf (setHead s (nextOf s x)) x = nextOf s x := by simp
  rw [hd, h2]; dsimp only
  simp [h1]

theorem remove_of_some_none (s : DState α) (x p : Nat)
    (h1 : prevOf s x = some p) (h2 : nextOf s x = none) :
    remove s x = setTail (setNext s p (nextOf s x)) (some p) := by
  unfold remove; dsimp only
  rw [h1]; dsimp only
  have hd : nextOf (setNext s p (nextOf s x)) x = nextOf s x := by
    simp only [nextOf_setNext]; split <;> simp_all
  rw [hd, h2]; dsimp only
  simp [h1]

theorem remove_of_some_some (s : DState α) (x p m : Nat)
    (h1 : prevOf s x = some p) (h2 : nextOf s x = some m) :
    remove s x = setPrev (setNext s p (nextOf s x)) m (some p) := by
  unfold remove; dsimp only
  rw [h1]; dsimp only
  have hd : nextOf (setNext s p (nextOf s x)) x = nextOf s x := by
    simp only [nextOf_setNext]; split <;> simp_all
  rw [hd, h2]; dsimp only
  simp [h1]

end dLinkedList

namespace dLinkedList

theorem lastO_append (p : Option Nat) (l1 l2 : List Nat) :
    lastO p (l1 ++ l2) = lastO (lastO p l1) l2 := by
  induction l1 generalizing p with
  | nil => rfl
  | cons i t ih => rw [List.cons_append, lastO_cons, ih, lastO_cons]

theorem lastO_mem (l : List Nat) (a : Option Nat) (q : Nat)
    (h : lastO a l = some q) : some q = a ∨ q ∈ l := by
  induction l generalizing a with
  | nil => exact Or.inl h.symm
  | cons i t ih =>
      rw [lastO_cons] at h
      rcases ih (some i) h with h' | h'
      · exact Or.inr (by simp [Option.some_inj.mp h'])
      · exact Or.inr (List.mem_cons_of_mem i h')

theorem lastO_some_ex (l : List Nat) (a : Nat) : ∃ q, lastO (some a) l = some q := by
  induction l generalizing a with
  | nil => exact ⟨a, rfl⟩
  | cons i t ih => rw [lastO_cons]; exact ih i

theorem firstO_mem (l : List Nat) (n : Option Nat) (q : Nat)
    (h : firstO l n = some q) : some q = n ∨ q ∈ l := by
  cases l with
  | nil => exact Or.inl h.symm
  | cons i t => exact Or.inr (by simp_all [firstO_cons])

theorem seg_middle (s : DState α) (l1 l2 : List Nat) (x : Nat) (p n : Option Nat) :
    seg s p (l1 ++ x :: l2) n = true ↔
      (seg s p l1 (some x) = true ∧ prevOf s x = lastO p l1 ∧
       nextOf s x = firstO l2 n ∧ seg s (some x) l2 n = true) := by
  rw [seg_append, seg_cons]
  simp only [firstO_cons, Bool.and_eq_true, beq_iff_eq]
  tauto

theorem nodup_decomp (l1 l2 : List Nat) (x : Nat) (h : (l1 ++ x :: l2).Nodup) :
    x ∉ l1 ∧ x ∉ l2 ∧ l1.Nodup ∧ l2.Nodup ∧ ∀ i ∈ l1, i ∉ l2 := by
  rw [List.nodup_append] at h
  obtain ⟨h1, h2, hd⟩ := h
  rw [List.nodup_cons] at h2
  refine ⟨fun hc => hd hc (List.mem_cons_self x l2), h2.1, h1, h2.2, ?_⟩
  exact fun i hi hc => hd hi (List.mem_cons_of_mem x hc)

theorem repOK_insert_head (s : DState α) (ids : List Nat) (x : Nat)
    (hrep : repOK s ids) (hx : x ∉ ids) : repOK (insert s x none) (x :: ids) := by
  obtain ⟨hH, hT, hseg, hnd⟩ := hrep
  cases ids with
  | nil =>
      rw [insert_none_of_head_none s x (by rw [hH]; rfl)]
      refine ⟨by simp, by simp [lastO], ?_, by simp⟩
      rw [seg_cons]
      simp [hH]
  | cons h t =>
      have hxh : x ≠ h := fun hc => hx (hc ▸ List.mem_cons_self h t)
      have hxt : x ∉ t := fun hc => hx (List.mem_cons_of_mem h hc)
      have hht : h ∉ t := (List.nodup_cons.mp hnd).1
      rw [insert_none_of_head_some s x h (by rw [hH]; rfl)]
      rw [seg_cons] at hseg
      simp only [Bool.and_eq_true, beq_iff_eq, and_assoc] at hseg
      obtain ⟨hph, hnh, hsegt⟩ := hseg
      refine ⟨by simp, ?_, ?_, List.nodup_cons.mpr ⟨hx, hnd⟩⟩
      · simpa using hT
      · rw [seg_cons]
        simp only [Bool.and_eq_true, beq_iff_eq, and_assoc]
        refine ⟨by simp [hxh], by simp [hH], ?_⟩
        rw [seg_cons]
        simp only [Bool.and_eq_true, beq_iff_eq, and_assoc]
        refine ⟨by simp, by simp [Ne.symm hxh, hnh], ?_⟩
        rw [seg_congr _ s]
        · exact hsegt
        · intro i hi
          have hix : i ≠ x := fun hc => hxt (hc ▸ hi)
          have hih : i ≠ h := fun hc => hht (hc ▸ hi)
          simp [hix, hih]
        · intro i hi
          have hix : i ≠ x := fun hc => hxt (hc ▸ hi)
          simp [hix]

end dLinkedList

namespace dLinkedList

theorem repOK_insert_after (s : DState α) (l1 l2 : List Nat) (a x : Nat)
    (hrep : repOK s (l1 ++ a :: l2)) (hx : x ∉ l1 ++ a :: l2) :
    repOK (insert s x (some a)) (l1 ++ a :: x :: l2) := by
  obtain ⟨hH, hT, hseg, hnd⟩ := hrep
  obtain ⟨hal1, hal2, hndl1, hndl2, hdisj⟩ := nodup_decomp l1 l2 a hnd
  have hxl1 : x ∉ l1 := fun hc => hx (List.mem_append_left _ hc)
  have hxa : x ≠ a := fun hc => hx (List.mem_append_right _ (hc ▸ List.mem_cons_self a l2))
  have hax : a ≠ x := Ne.symm hxa
  have hxl2 : x ∉ l2 := fun hc => hx (List.mem_append_right _ (List.mem_cons_of_mem a hc))
  rw [seg_middle] at hseg
  obtain ⟨hsl1, hpa, hna, hsl2⟩ := hseg
  have hnds : (a :: (l1 ++ l2)).Nodup := List.nodup_middle.mp hnd
  rw [List.nodup_cons, List.mem_append] at hnds
  have hnd' : (l1 ++ a :: x :: l2).Nodup := by
    rw [List.nodup_middle, List.nodup_cons]
    refine ⟨?_, List.nodup_middle.mpr (List.nodup_cons.mpr ⟨?_, hnds.2⟩)⟩
    · simp only [List.mem_append, List.mem_cons]
      push_neg
      exact ⟨hal1, hax, hal2⟩
    · simp only [List.mem_append]
      push_neg
      exact ⟨hxl1, hxl2⟩
  cases l2 with
  | nil =>
      have hna' : nextOf s a = none := hna
      rw [insert_some_of_next_none s x a hxa hna']
      refine ⟨?_, ?_, ?_, hnd'⟩
      · simp only [Head_setTail, Head_setPrev, Head_setNext]
        rw [firstO_append] at hH ⊢
        exact hH
      · simp [lastO_append, lastO_cons]
      · rw [seg_middle]
        refine ⟨?_, ?_, ?_, ?_⟩
        · rw [seg_congr _ s]
          · exact hsl1
          · intro i hi
            have hix : i ≠ x := fun hc => hxl1 (hc ▸ hi)
            simp [hix]
          · intro i hi
            have hix : i ≠ x := fun hc => hxl1 (hc ▸ hi)
            have hia : i ≠ a := fun hc => hal1 (hc ▸ hi)
            simp [hix, hia]
        · simpa [hax] using hpa
        · simp
        · rw [seg_cons]
          simp [hna', hxa]
  | cons m l2' =>
      have hna' : nextOf s a = some m := hna
      have hmx : m ≠ x := fun hc => hxl2 (hc ▸ List.mem_cons_self m l2')
      have hma : m ≠ a := fun hc => hal2 (hc ▸ List.mem_cons_self m l2')
      have hml1 : m ∉ l1 := fun hc => hdisj m hc (List.mem_cons_self m l2')
      have hml2' : m ∉ l2' := (List.nodup_cons.mp hndl2).1
      rw [seg_cons] at hsl2
      simp only [Bool.and_eq_true, beq_iff_eq, and_assoc] at hsl2
      obtain ⟨hpm, hnm, hsl2'⟩ := hsl2
      rw [insert_some_of_next_some s x a m hxa hna']
      refine ⟨?_, ?_, ?_, hnd'⟩
      · simp only [Head_setPrev, Head_setNext]
        rw [firstO_append] at hH ⊢
        exact hH
      · simp only [Tail_setPrev, Tail_setNext]
        rw [lastO_append] at hT ⊢
        exact hT
      · rw [seg_middle]
        refine ⟨?_, ?_, ?_, ?_⟩
        · rw [seg_congr _ s]
          · exact hsl1
          · intro i hi
            have hix : i ≠ x := fun hc => hxl1 (hc ▸ hi)
            have him : i ≠ m := fun hc => hml1 (hc ▸ hi)
            simp [hix, him]
          · intro i hi
            have hix : i ≠ x := fun hc => hxl1 (hc ▸ hi)
            have hia : i ≠ a := fun hc => hal1 (hc ▸ hi)
            simp [hix, hia]
        · simpa [hax, hma.symm] using hpa
        · simp [hax, hma.symm]
        · rw [seg_cons]
          simp only [Bool.and_eq_true, beq_iff_eq, and_assoc]
          refine ⟨by simp [hxa, hmx.symm], by simp [hxa, hna'], ?_⟩
          rw [seg_cons]
          simp only [Bool.and_eq_true, beq_iff_eq, and_assoc]
          refine ⟨by simp, by simp [hmx, hma, hnm], ?_⟩
          rw [seg_congr _ s]
          · exact hsl2'
          · intro i hi
            have hix : i ≠ x := fun hc => hxl2 (hc ▸ List.mem_cons_of_mem m hi)
            have him : i ≠ m := fun hc => hml2' (hc ▸ hi)
            simp [hix, him]
          · intro i hi
            have hix : i ≠ x := fun hc => hxl2 (hc ▸ List.mem_cons_of_mem m hi)
            have hia : i ≠ a := fun hc => hal2 (hc ▸ List.mem_cons_of_mem m hi)
            simp [hix, hia]

end dLinkedList

namespace dLinkedList

theorem repOK_remove (s : DState α) (l1 l2 : List Nat) (x : Nat)
    (hrep : repOK s (l1 ++ x :: l2)) : repOK (remove s x) (l1 ++ l2) := by
  obtain ⟨hH, hT, hseg, hnd⟩ := hrep
  obtain ⟨hxl1, hxl2, hndl1, hndl2, hdisj⟩ := nodup_decomp l1 l2 x hnd
  rw [seg_middle] at hseg
  obtain ⟨hsl1, hpx, hnx, hsl2⟩ := hseg
  have hnd' : (l1 ++ l2).Nodup := (List.nodup_cons.mp (List.nodup_middle.mp hnd)).2
  rcases List.eq_nil_or_concat l1 with h1 | ⟨L, p, hL⟩
  on_goal 2 => rw [List.concat_eq_append] at hL
  · subst h1
    have hpx' : prevOf s x = none := hpx
    cases l2 with
    | nil =>
        have hnx' : nextOf s x = none := hnx
        rw [remove_of_none_none s x hpx' hnx']
        exact ⟨by simp [hnx'], by simp [lastO], by simp, by simp⟩
    | cons m l2' =>
        have hnx' : nextOf s x = some m := hnx
        have hml2' : m ∉ l2' := (List.nodup_cons.mp hndl2).1
        rw [seg_cons] at hsl2
        simp only [Bool.and_eq_true, beq_iff_eq, and_assoc] at hsl2
        obtain ⟨hpm, hnm, hsl2'⟩ := hsl2
        rw [remove_of_none_some s x m hpx' hnx']
        refine ⟨by simp [hnx'], ?_, ?_, hnd'⟩
        · simp only [Tail_setPrev, Tail_setHead]
          simp only [List.nil_append, lastO_cons] at hT ⊢
          exact hT
        · simp only [List.nil_append]
          rw [seg_cons]
          simp only [Bool.and_eq_true, beq_iff_eq, and_assoc]
          refine ⟨by simp, by simp [hnm], ?_⟩
          rw [seg_congr _ s]
          · exact hsl2'
          · intro i hi
            have him : i ≠ m := fun hc => hml2' (hc ▸ hi)
            simp [him]
          · intro i hi
            simp
  · subst hL
    obtain ⟨hpL, -, hndL, -, -⟩ := nodup_decomp L [] p (by simpa using hndl1)
    have hxL : x ∉ L := fun hc => hxl1 (List.mem_append_left _ hc)
    have hxp : x ≠ p := fun hc => hxl1 (List.mem_append_right _ (by simp [hc]))
    have hpx' : prevOf s x = some p := by
      rw [hpx, lastO_append]; rfl
    rw [seg_middle s L [] p none (some x)] at hsl1
    obtain ⟨hsL, hpp, hnp, -⟩ := hsl1
    have hnp' : nextOf s p = some x := hnp
    cases l2 with
    | nil =>
        have hnx' : nextOf s x = none := hnx
        rw [remove_of_some_none s x p hpx' hnx']
        refine ⟨?_, ?_, ?_, hnd'⟩
        · simp only [Head_setTail, Head_setNext]
          simp only [firstO_append, firstO_cons, firstO_nil] at hH ⊢
          exact hH
        · simp [lastO_append, lastO_cons]
        · simp only [List.append_nil]
          rw [seg_middle _ L ([] : List Nat) p none none]
          refine ⟨?_, by simpa using hpp, by simp [hnx'], by simp⟩
          rw [seg_congr _ s]
          · exact hsL
          · intro i hi
            simp
          · intro i hi
            have hip : i ≠ p := fun hc => hpL (hc ▸ hi)
            simp [hip]
    | cons m l2' =>
        have hnx' : nextOf s x = some m := hnx
        have hml2' : m ∉ l2' := (List.nodup_cons.mp hndl2).1
        have hpml : p ∉ m :: l2' := hdisj p (List.mem_append_right _ (by simp))
        have hpm' : p ≠ m := fun hc => hpml (hc ▸ List.mem_cons_self m l2')
        have hmL : m ∉ L :=
          fun hc => hdisj m (List.mem_append_left _ hc) (List.mem_cons_self m l2')
        rw [seg_cons] at hsl2
        simp only [Bool.and_eq_true, beq_iff_eq, and_assoc] at hsl2
        obtain ⟨hpm, hnm, hsl2'⟩ := hsl2
        rw [remove_of_some_some s x p m hpx' hnx']
        refine ⟨?_, ?_, ?_, hnd'⟩
        · simp only [Head_setPrev, Head_setNext]
          simp only [firstO_append, firstO_cons, firstO_nil] at hH ⊢
          exact hH
        · simp only [Tail_setPrev, Tail_setNext]
          simp only [lastO_append, lastO_cons, lastO_nil] at hT ⊢
          exact hT
        · rw [List.append_assoc, List.singleton_append]
          rw [seg_middle _ L (m :: l2') p none none]
          refine ⟨?_, by simpa [hpm'] using hpp, by simp [hnx'], ?_⟩
          · rw [seg_congr _ s]
            · exact hsL
            · intro i hi
              have him : i ≠ m := fun hc => hmL (hc ▸ hi)
              simp [him]
            · intro i hi
              have hip : i ≠ p := fun hc => hpL (hc ▸ hi)
              simp [hip]
          · rw [seg_cons]
            simp only [Bool.and_eq_true, beq_iff_eq, and_assoc]
            refine ⟨by simp, by simp [Ne.symm hpm', hnm], ?_⟩
            rw [seg_congr _ s]
            · exact hsl2'
            · intro i hi
              have him : i ≠ m := fun hc => hml2' (hc ▸ hi)
              simp [him]
            · intro i hi
              have hip : i ≠ p := fun hc => hpml (hc ▸ List.mem_cons_of_mem m hi)
              simp [hip]

end dLinkedList

namespace dLinkedList

theorem repOK_newNode (s : DState α) (ids : List Nat) (x : Nat) (d : α)
    (hrep : repOK s ids) (hx : x ∉ ids) : repOK (newNode s x d) ids := by
  obtain ⟨hH, hT, hseg, hnd⟩ := hrep
  refine ⟨by simpa using hH, by simpa using hT, ?_, hnd⟩
  rw [seg_congr _ s]
  · exact hseg
  · intro i hi
    have hix : i ≠ x := fun hc => hx (hc ▸ hi)
    simp [hix]
  · intro i hi
    have hix : i ≠ x := fun hc => hx (hc ▸ hi)
    simp [hix]

theorem reachable_repOK (d0 : α) (s : DState α) (ids : List Nat)
    (h : Reachable d0 s ids) : repOK s ids := by
  induction h with
  | empty => exact ⟨rfl, rfl, rfl, List.nodup_nil⟩
  | insertHead s ids x d hr hx ih =>
      exact repOK_insert_head _ _ _ (repOK_newNode _ _ _ _ ih hx) hx
  | insertAfter s l1 l2 a x d hr hx ih =>
      exact repOK_insert_after _ _ _ _ _ (repOK_newNode _ _ _ _ ih hx) hx
  | removeNode s l1 l2 x hr ih =>
      exact repOK_remove _ _ _ _ ih

theorem elemsAux_seg (s : DState α) (l : List Nat) (p : Option Nat) (fuel : Nat)
    (hseg : seg s p l none = true) (hf : l.length ≤ fuel) :
    elemsAux s fuel (firstO l none) = l.map (dataOf s) := by
  induction l generalizing p fuel with
  | nil => cases fuel <;> rfl
  | cons i t ih =>
      cases fuel with
      | zero => exact absurd hf (by simp)
      | succ f =>
          rw [seg_cons] at hseg
          simp only [Bool.and_eq_true, beq_iff_eq, and_assoc] at hseg
          obtain ⟨-, hni, hst⟩ := hseg
          rw [firstO_cons]
          show dataOf s i :: elemsAux s f (nextOf s i) = dataOf s i :: t.map (dataOf s)
          rw [hni, ih (some i) f hst (by simpa using Nat.le_of_succ_le_succ hf)]

theorem backAux_seg (s : DState α) (l : List Nat) (n : Option Nat) (fuel : Nat)
    (hseg : seg s none l n = true) (hf : l.length ≤ fuel) :
    backAux s fuel (lastO none l) = (l.map (dataOf s)).reverse := by
  induction l using List.reverseRecOn generalizing n fuel with
  | nil => cases fuel <;> rfl
  | append_singleton L i ih =>
      cases fuel with
      | zero => simp at hf
      | succ f =>
          rw [seg_append] at hseg
          simp only [Bool.and_eq_true] at hseg
          obtain ⟨hsL, hseg2⟩ := hseg
          rw [seg_cons] at hseg2
          simp only [Bool.and_eq_true, beq_iff_eq, and_assoc] at hseg2
          obtain ⟨hpi, -, -⟩ := hseg2
          rw [lastO_append, lastO_cons, lastO_nil]
          show dataOf s i :: backAux s f (prevOf s i) = ((L ++ [i]).map (dataOf s)).reverse
          rw [hpi, ih (some i) f (by simpa using hsL) (by simpa using Nat.le_of_succ_le_succ (by simpa using hf))]
          simp

theorem elements_repOK (s : DState α) (ids : List Nat) (fuel : Nat)
    (hrep : repOK s ids) (hf : ids.length ≤ fuel) :
    elements s fuel = ids.map (dataOf s) := by
  obtain ⟨hH, -, hseg, -⟩ := hrep
  unfold elements
  rw [hH]
  exact elemsAux_seg s ids none fuel hseg hf

theorem backwards_repOK (s : DState α) (ids : List Nat) (fuel : Nat)
    (hrep : repOK s ids) (hf : ids.length ≤ fuel) :
    backwards s fuel = (ids.map (dataOf s)).reverse := by
  obtain ⟨-, hT, hseg, -⟩ := hrep
  unfold backwards
  rw [hT]
  exact backAux_seg s ids none fuel hseg hf

end dLinkedList

namespace dLinkedList

/-- C1: for every list and fresh node `x`: `insert(x)` with `after` absent
makes `x` the new head, with `x.Prev` absent and `x.Next` the old head, and
if the list was empty `x` also becomes the tail; `insert(x, after = N)` for
a member `N` splices `x` right after `N`: `x.Next` is `N`'s old next,
`x.Prev` is `N`, `N.Next` is `x`, if `N` was the tail (its old next absent)
then `x` becomes the new tail, and otherwise the old successor's `Prev` is
repointed to `x`. -/
theorem C1_insert_spec {α : Type} (s : DState α) (ids : List Nat) (x : Nat)
    (hrep : repOK s ids) (hx : x ∉ ids) :
    ((insert s x none).Head = some x ∧
     prevOf (insert s x none) x = none ∧
     nextOf (insert s x none) x = s.Head ∧
     (ids = [] → (insert s x none).Tail = some x)) ∧
    (∀ N ∈ ids,
      nextOf (insert s x (some N)) x = nextOf s N ∧
      prevOf (insert s x (some N)) x = some N ∧
      nextOf (insert s x (some N)) N = some x ∧
      (nextOf s N = none → (insert s x (some N)).Tail = some x) ∧
      (∀ m, nextOf s N = some m → prevOf (insert s x (some N)) m = some x)) := by
  obtain ⟨hH, hT, hseg, hnd⟩ := hrep
  constructor
  · cases hc : s.Head with
    | none =>
        rw [insert_none_of_head_none s x hc]
        exact ⟨by simp, by simp, by simp [hc], fun _ => by simp⟩
    | some h =>
        have hh : h ∈ ids := by
          rcases firstO_mem ids none h (by rw [← hH]; exact hc) with h' | h'
          · exact absurd h' (by simp)
          · exact h'
        have hxh : x ≠ h := fun hc2 => hx (hc2 ▸ hh)
        rw [insert_none_of_head_some s x h hc]
        refine ⟨by simp, by simp [hxh], by simp [hc], ?_⟩
        intro hnil
        rw [hnil] at hh
        cases hh
  · intro N hN
    have hxN : x ≠ N := fun hc2 => hx (hc2 ▸ hN)
    obtain ⟨L1, L2, hids⟩ := List.append_of_mem hN
    subst hids
    rw [seg_middle] at hseg
    obtain ⟨-, -, hnN, hsl2⟩ := hseg
    cases hcn : nextOf s N with
    | none =>
        rw [insert_some_of_next_none s x N hxN hcn]
        refine ⟨by simp [hxN, hcn], by simp, by simp, fun _ => by simp, ?_⟩
        intro m hm
        simp at hm
    | some m =>
        have hm2 : m ∈ L2 := by
          rw [hcn] at hnN
          rcases firstO_mem L2 none m hnN.symm with h' | h'
          · exact absurd h' (by simp)
          · exact h'
        have hxm : x ≠ m :=
          fun hc2 => hx (hc2 ▸ List.mem_append_right _ (List.mem_cons_of_mem N hm2))
        rw [insert_some_of_next_some s x N m hxN hcn]
        refine ⟨by simp [hxN, hcn], by simp [hxm], by simp, ?_, ?_⟩
        · intro habs
          simp at habs
        · intro m' hm'
          injection hm' with h3
          subst h3
          simp

/-- Witness for C1 at the empty list with fresh node 7. -/
theorem C1_insert_spec_witness :
    repOK (emptyState (0 : Nat)) [] ∧ 7 ∉ ([] : List Nat) ∧
    (((insert (emptyState (0 : Nat)) 7 none).Head = some 7 ∧
      prevOf (insert (emptyState (0 : Nat)) 7 none) 7 = none ∧
      nextOf (insert (emptyState (0 : Nat)) 7 none) 7 = (emptyState (0 : Nat)).Head ∧
      (([] : List Nat) = [] → (insert (emptyState (0 : Nat)) 7 none).Tail = some 7)) ∧
     (∀ N ∈ ([] : List Nat),
       nextOf (insert (emptyState (0 : Nat)) 7 (some N)) 7 = nextOf (emptyState (0 : Nat)) N ∧
       prevOf (insert (emptyState (0 : Nat)) 7 (some N)) 7 = some N ∧
       nextOf (insert (emptyState (0 : Nat)) 7 (some N)) N = some 7 ∧
       (nextOf (emptyState (0 : Nat)) N = none →
         (insert (emptyState (0 : Nat)) 7 (some N)).Tail = some 7) ∧
       (∀ m, nextOf (emptyState (0 : Nat)) N = some m →
         prevOf (insert (emptyState (0 : Nat)) 7 (some N)) m = some 7))) :=
  ⟨by decide, by decide, C1_insert_spec (emptyState 0) [] 7 (by decide) (by decide)⟩

/-- C2: for every member `x` of a list in a valid state, `remove(x)` updates
`Head` to `x.Next` when `x.Prev` is absent and otherwise sets `x.Prev.Next`
to `x.Next`; symmetrically it updates `Tail` to `x.Prev` when `x.Next` is
absent and otherwise sets `x.Next.Prev` to `x.Prev`; removing the sole
remaining node leaves both `Head` and `Tail` absent. -/
theorem C2_remove_spec {α : Type} (s : DState α) (ids : List Nat) (x : Nat)
    (hrep : repOK s ids) (hx : x ∈ ids) :
    (prevOf s x = none → (remove s x).Head = nextOf s x) ∧
    (∀ p, prevOf s x = some p → nextOf (remove s x) p = nextOf s x) ∧
    (nextOf s x = none → (remove s x).Tail = prevOf s x) ∧
    (∀ m, nextOf s x = some m → prevOf (remove s x) m = prevOf s x) ∧
    (ids = [x] → (remove s x).Head = none ∧ (remove s x).Tail = none) := by
  obtain ⟨hH, hT, hseg, hnd⟩ := hrep
  have hlast : ids = [x] → prevOf s x = none ∧ nextOf s x = none := by
    intro hids
    rw [hids, seg_cons] at hseg
    simp only [Bool.and_eq_true, beq_iff_eq, and_assoc] at hseg
    exact ⟨hseg.1, by simpa using hseg.2.1⟩
  cases hp : prevOf s x with
  | none =>
      cases hn : nextOf s x with
      | none =>
          rw [remove_of_none_none s x hp hn]
          refine ⟨fun _ => by simp [hn], ?_, fun _ => by simp, ?_,
            fun _ => ⟨by simp [hn], by simp⟩⟩
          · intro p hp2; simp at hp2
          · intro m hm; simp at hm
      | some m =>
          rw [remove_of_none_some s x m hp hn]
          refine ⟨fun _ => by simp [hn], ?_, ?_, ?_, ?_⟩
          · intro p hp2; simp at hp2
          · intro h2; simp at h2
          · intro m' hm'
            injection hm' with h3
            subst h3
            simp
          · intro hids
            have h5 := (hlast hids).2
            rw [hn] at h5
            simp at h5
  | some p =>
      cases hn : nextOf s x with
      | none =>
          rw [remove_of_some_none s x p hp hn]
          refine ⟨?_, ?_, fun _ => by simp, ?_, ?_⟩
          · intro h2; simp at h2
          · intro p' hp'
            injection hp' with h3
            subst h3
            simp [hn]
          · intro m hm; simp at hm
          · intro hids
            have h5 := (hlast hids).1
            rw [hp] at h5
            simp at h5
      | some m =>
          rw [remove_of_some_some s x p m hp hn]
          refine ⟨?_, ?_, ?_, ?_, ?_⟩
          · intro h2; simp at h2
          · intro p' hp'
            injection hp' with h3
            subst h3
            simp [hn]
          · intro h2; simp at h2
          · intro m' hm'
            injection hm' with h3
            subst h3
            simp
          · intro hids
            have h5 := (hlast hids).1
            rw [hp] at h5
            simp at h5

/-- Witness for C2 at a one-node list, removing its sole node. -/
theorem C2_remove_spec_witness :
    repOK (⟨some 3, some 3, fun _ => ⟨none, none, 0⟩⟩ : DState Nat) [3] ∧
    3 ∈ [3] ∧
    ((prevOf (⟨some 3, some 3, fun _ => ⟨none, none, 0⟩⟩ : DState Nat) 3 = none →
       (remove (⟨some 3, some 3, fun _ => ⟨none, none, 0⟩⟩ : DState Nat) 3).Head =
         nextOf (⟨some 3, some 3, fun _ => ⟨none, none, 0⟩⟩ : DState Nat) 3) ∧
     (∀ p, prevOf (⟨some 3, some 3, fun _ => ⟨none, none, 0⟩⟩ : DState Nat) 3 = some p →
       nextOf (remove (⟨some 3, some 3, fun _ => ⟨none, none, 0⟩⟩ : DState Nat) 3) p =
         nextOf (⟨some 3, some 3, fun _ => ⟨none, none, 0⟩⟩ : DState Nat) 3) ∧
     (nextOf (⟨some 3, some 3, fun _ => ⟨none, none, 0⟩⟩ : DState Nat) 3 = none →
       (remove (⟨some 3, some 3, fun _ => ⟨none, none, 0⟩⟩ : DState Nat) 3).Tail =
         prevOf (⟨some 3, some 3, fun _ => ⟨none, none, 0⟩⟩ : DState Nat) 3) ∧
     (∀ m, nextOf (⟨some 3, some 3, fun _ => ⟨none, none, 0⟩⟩ : DState Nat) 3 = some m →
       prevOf (remove (⟨some 3, some 3, fun _ => ⟨none, none, 0⟩⟩ : DState Nat) 3) m =
         prevOf (⟨some 3, some 3, fun _ => ⟨none, none, 0⟩⟩ : DState Nat) 3) ∧
     ([3] = [3] →
       (remove (⟨some 3, some 3, fun _ => ⟨none, none, 0⟩⟩ : DState Nat) 3).Head = none ∧
       (remove (⟨some 3, some 3, fun _ => ⟨none, none, 0⟩⟩ : DState Nat) 3).Tail = none)) :=
  ⟨by decide, by decide,
    C2_remove_spec (⟨some 3, some 3, fun _ => ⟨none, none, 0⟩⟩ : DState Nat) [3] 3
      (by decide) (by decide)⟩

end dLinkedList

namespace dLinkedList

/-- C3: after any sequence of valid `insert`/`remove` calls starting from an
empty list, `Head.Prev` is absent and `Tail.Next` is absent whenever the
list is non-empty, and `Head` and `Tail` are both absent exactly when the
list is empty. -/
theorem C3_invariant {α : Type} (d0 : α) (s : DState α) (ids : List Nat)
    (h : Reachable d0 s ids) :
    (∀ hd, s.Head = some hd → prevOf s hd = none) ∧
    (∀ tl, s.Tail = some tl → nextOf s tl = none) ∧
    ((s.Head = none ∧ s.Tail = none) ↔ ids = []) := by
  obtain ⟨hH, hT, hseg, hnd⟩ := reachable_repOK d0 s ids h
  refine ⟨?_, ?_, ?_⟩
  · intro hd hhd
    cases ids with
    | nil => rw [hH] at hhd; simp [firstO_nil] at hhd
    | cons i t =>
        rw [hH, firstO_cons] at hhd
        injection hhd with h2
        subst h2
        rw [seg_cons] at hseg
        simp only [Bool.and_eq_true, beq_iff_eq, and_assoc] at hseg
        exact hseg.1
  · intro tl htl
    rw [hT] at htl
    rcases List.eq_nil_or_concat ids with h1 | ⟨L, b, hL⟩
    · subst h1; simp [lastO_nil] at htl
    · rw [List.concat_eq_append] at hL
      subst hL
      rw [lastO_append, lastO_cons, lastO_nil] at htl
      injection htl with h2
      subst h2
      rw [seg_append] at hseg
      simp only [Bool.and_eq_true] at hseg
      have h3 := hseg.2
      rw [seg_cons] at h3
      simp only [Bool.and_eq_true, beq_iff_eq, and_assoc] at h3
      simpa using h3.2.1
  · constructor
    · rintro ⟨hh, -⟩
      cases ids with
      | nil => rfl
      | cons i t => rw [hH, firstO_cons] at hh; cases hh
    · rintro rfl
      rw [hH, hT]
      exact ⟨rfl, rfl⟩

/-- Witness for C3 at the list obtained by one head-insert into the empty
list. -/
theorem C3_invariant_witness :
    Reachable (0 : Nat) (insert (newNode (emptyState 0) 3 7) 3 none) [3] ∧
    ((∀ hd, (insert (newNode (emptyState (0 : Nat)) 3 7) 3 none).Head = some hd →
        prevOf (insert (newNode (emptyState (0 : Nat)) 3 7) 3 none) hd = none) ∧
     (∀ tl, (insert (newNode (emptyState (0 : Nat)) 3 7) 3 none).Tail = some tl →
        nextOf (insert (newNode (emptyState (0 : Nat)) 3 7) 3 none) tl = none) ∧
     (((insert (newNode (emptyState (0 : Nat)) 3 7) 3 none).Head = none ∧
       (insert (newNode (emptyState (0 : Nat)) 3 7) 3 none).Tail = none) ↔ [3] = [])) :=
  have hr : Reachable (0 : Nat) (insert (newNode (emptyState 0) 3 7) 3 none) [3] :=
    Reachable.insertHead (emptyState 0) [] 3 7 Reachable.empty (by decide)
  ⟨hr, C3_invariant 0 (insert (newNode (emptyState 0) 3 7) 3 none) [3] hr⟩

/-- C5: for every list reachable by valid calls from an empty list (in
particular by any sequence of inserts), `elements()` yields exactly the
payloads of the chain from `Head` in order (the empty sequence for an empty
list), and following `Prev` from `Tail` yields exactly the reverse of what
`elements()` yields. -/
theorem C5_elements_order {α : Type} (d0 : α) (s : DState α) (ids : List Nat)
    (fuel : Nat) (h : Reachable d0 s ids) (hf : ids.length ≤ fuel) :
    elements s fuel = ids.map (dataOf s) ∧
    backwards s fuel = (elements s fuel).reverse ∧
    (ids = [] → elements s fuel = []) := by
  have hrep := reachable_repOK d0 s ids h
  have he := elements_repOK s ids fuel hrep hf
  have hb := backwards_repOK s ids fuel hrep hf
  exact ⟨he, by rw [he, hb], fun hids => by rw [he, hids]; rfl⟩

/-- Witness for C5 at the list obtained by one head-insert into the empty
list, with fuel 1. -/
theorem C5_elements_order_witness :
    Reachable (0 : Nat) (insert (newNode (emptyState 0) 3 7) 3 none) [3] ∧
    [3].length ≤ 1 ∧
    (elements (insert (newNode (emptyState (0 : Nat)) 3 7) 3 none) 1 =
       [3].map (dataOf (insert (newNode (emptyState (0 : Nat)) 3 7) 3 none)) ∧
     backwards (insert (newNode (emptyState (0 : Nat)) 3 7) 3 none) 1 =
       (elements (insert (newNode (emptyState (0 : Nat)) 3 7) 3 none) 1).reverse ∧
     ([3] = [] → elements (insert (newNode (emptyState (0 : Nat)) 3 7) 3 none) 1 = [])) :=
  have hr : Reachable (0 : Nat) (insert (newNode (emptyState 0) 3 7) 3 none) [3] :=
    Reachable.insertHead (emptyState 0) [] 3 7 Reachable.empty (by decide)
  ⟨hr, by decide,
    C5_elements_order 0 (insert (newNode (emptyState 0) 3 7) 3 none) [3] 1 hr (by decide)⟩

end dLinkedList

namespace dLinkedList

/-- C4: for every list in a valid state, inserting a freshly created node
`x` (either at the head or after a member `N`) and then immediately removing
`x` restores the pre-insert list: `Head`, `Tail` and the `Next`/`Prev`
links of all previously present nodes are exactly as before the insert. -/
theorem C4_round_trip {α : Type} (s : DState α) (ids : List Nat) (x : Nat)
    (d : α) (after : Option Nat) (hrep : repOK s ids) (hx : x ∉ ids)
    (haft : after = none ∨ ∃ N, after = some N ∧ N ∈ ids) :
    (remove (insert (newNode s x d) x after) x).Head = s.Head ∧
    (remove (insert (newNode s x d) x after) x).Tail = s.Tail ∧
    ∀ i ∈ ids,
      nextOf (remove (insert (newNode s x d) x after) x) i = nextOf s i ∧
      prevOf (remove (insert (newNode s x d) x after) x) i = prevOf s i := by
  obtain ⟨hH, hT, hseg, hnd⟩ := hrep
  rcases haft with rfl | ⟨N, rfl, hN⟩
  · cases hc : s.Head with
    | none =>
        have hids : ids = [] := by
          cases ids with
          | nil => rfl
          | cons i t => rw [hH, firstO_cons] at hc; cases hc
        subst hids
        have hTnone : s.Tail = none := by rw [hT]; rfl
        have hcn : (newNode s x d).Head = none := by simpa using hc
        rw [insert_none_of_head_none (newNode s x d) x hcn]
        rw [remove_of_none_none _ x (by simp) (by simp [hcn, hc])]
        refine ⟨by simp [hcn, hc], by simp [hTnone], by simp⟩
    | some h =>
        have hh : h ∈ ids := by
          rcases firstO_mem ids none h (by rw [← hH]; exact hc) with h' | h'
          · exact absurd h' (by simp)
          · exact h'
        have hxh : x ≠ h := fun hc2 => hx (hc2 ▸ hh)
        have hph : prevOf s h = none := by
          cases ids with
          | nil => cases hh
          | cons i t =>
              have h2 : i = h := by
                rw [hH, firstO_cons] at hc
                exact Option.some_inj.mp hc
              subst h2
              rw [seg_cons] at hseg
              simp only [Bool.and_eq_true, beq_iff_eq, and_assoc] at hseg
              exact hseg.1
        have hchn : (newNode s x d).Head = some h := by simpa using hc
        rw [insert_none_of_head_some (newNode s x d) x h hchn]
        rw [remove_of_none_some _ x h (by simp [hxh]) (by simp [hchn, hc])]
        refine ⟨by simp [hc], by simp, ?_⟩
        intro i hi
        have hix : i ≠ x := fun hc2 => hx (hc2 ▸ hi)
        by_cases hih : i = h
        · subst hih
          exact ⟨by simp [Ne.symm hxh], by simp [hph]⟩
        · exact ⟨by simp [hix], by simp [hix, hih]⟩
  · have hxN : x ≠ N := fun hc2 => hx (hc2 ▸ hN)
    obtain ⟨L1, L2, hids⟩ := List.append_of_mem hN
    subst hids
    obtain ⟨hNL1, hNL2, -, hndL2, hdisj⟩ := nodup_decomp L1 L2 N hnd
    rw [seg_middle] at hseg
    obtain ⟨-, -, hnN, hsl2⟩ := hseg
    have hnextt : nextOf (newNode s x d) N = nextOf s N := by simp [Ne.symm hxN]
    cases hcn : nextOf s N with
    | none =>
        have hL2 : L2 = [] := by
          cases L2 with
          | nil => rfl
          | cons m t2 => rw [hcn] at hnN; simp [firstO_cons] at hnN
        subst hL2
        have hTN : s.Tail = some N := by rw [hT, lastO_append, lastO_cons, lastO_nil]
        rw [insert_some_of_next_none (newNode s x d) x N hxN (by rw [hnextt]; exact hcn)]
        rw [remove_of_some_none _ x N (by simp) (by simp [hxN, hnextt, hcn])]
        refine ⟨by simp, by simp [hTN], ?_⟩
        intro i hi
        have hix : i ≠ x := fun hc2 => hx (hc2 ▸ hi)
        by_cases hiN : i = N
        · subst hiN
          exact ⟨by simp [hxN, Ne.symm hxN, hnextt, hcn], by simp [Ne.symm hxN]⟩
        · exact ⟨by simp [hix, hiN], by simp [hix]⟩
    | some m =>
        have hm2 : m ∈ L2 := by
          rw [hcn] at hnN
          rcases firstO_mem L2 none m hnN.symm with h' | h'
          · exact absurd h' (by simp)
          · exact h'
        have hxm : x ≠ m :=
          fun hc2 => hx (hc2 ▸ List.mem_append_right _ (List.mem_cons_of_mem N hm2))
        have hNm : N ≠ m := fun hc2 => hNL2 (hc2 ▸ hm2)
        obtain ⟨t2, hL2⟩ : ∃ t2, L2 = m :: t2 := by
          cases L2 with
          | nil => rw [hcn] at hnN; exact absurd hnN (by simp)
          | cons m0 t2 =>
              rw [hcn, firstO_cons] at hnN
              exact ⟨t2, by rw [← Option.some_inj.mp hnN]⟩
        subst hL2
        rw [seg_cons] at hsl2
        simp only [Bool.and_eq_true, beq_iff_eq, and_assoc] at hsl2
        obtain ⟨hpm, -, -⟩ := hsl2
        rw [insert_some_of_next_some (newNode s x d) x N m hxN (by rw [hnextt]; exact hcn)]
        rw [remove_of_some_some _ x N m (by simp [hxm]) (by simp [hxN, hnextt, hcn])]
        refine ⟨by simp, by simp, ?_⟩
        intro i hi
        have hix : i ≠ x := fun hc2 => hx (hc2 ▸ hi)
        by_cases hiN : i = N
        · subst hiN
          exact ⟨by simp [hxN, Ne.symm hxN, hnextt, hcn], by simp [Ne.symm hxN, hNm]⟩
        · by_cases him : i = m
          · subst him
            exact ⟨by simp [hix, hiN], by simp [hpm]⟩
          · exact ⟨by simp [hix, hiN], by simp [hix, him]⟩

/-- Witness for C4 at a one-node list, inserting fresh node 7 after member 3
and removing it again. -/
theorem C4_round_trip_witness :
    repOK (⟨some 3, some 3, fun _ => ⟨none, none, 0⟩⟩ : DState Nat) [3] ∧
    7 ∉ [3] ∧
    (some 3 = none ∨ ∃ N, (some 3 = some N) ∧ N ∈ [3]) ∧
    ((remove (insert (newNode (⟨some 3, some 3, fun _ => ⟨none, none, 0⟩⟩ : DState Nat) 7 9) 7 (some 3)) 7).Head =
       (⟨some 3, some 3, fun _ => ⟨none, none, 0⟩⟩ : DState Nat).Head ∧
     (remove (insert (newNode (⟨some 3, some 3, fun _ => ⟨none, none, 0⟩⟩ : DState Nat) 7 9) 7 (some 3)) 7).Tail =
       (⟨some 3, some 3, fun _ => ⟨none, none, 0⟩⟩ : DState Nat).Tail ∧
     ∀ i ∈ [3],
       nextOf (remove (insert (newNode (⟨some 3, some 3, fun _ => ⟨none, none, 0⟩⟩ : DState Nat) 7 9) 7 (some 3)) 7) i =
         nextOf (⟨some 3, some 3, fun _ => ⟨none, none, 0⟩⟩ : DState Nat) i ∧
       prevOf (remove (insert (newNode (⟨some 3, some 3, fun _ => ⟨none, none, 0⟩⟩ : DState Nat) 7 9) 7 (some 3)) 7) i =
         prevOf (⟨some 3, some 3, fun _ => ⟨none, none, 0⟩⟩ : DState Nat) i) :=
  ⟨by decide, by decide, Or.inr ⟨3, rfl, by decide⟩,
    C4_round_trip (⟨some 3, some 3, fun _ => ⟨none, none, 0⟩⟩ : DState Nat) [3] 7 9
      (some 3) (by decide) (by decide) (Or.inr ⟨3, rfl, by decide⟩)⟩

end dLinkedList

namespace dLinkedList

/-- C6: the concrete scenario: payloads "a","b","c","d","e" inserted at the
head in that order make `elements()` yield `["e","d","c","b","a"]`; removing
the current head (node 4) and then the current tail (node 0) makes
`elements()` yield `["d","c","b"]`; removing the middle node (node 2, the
one with payload "c") makes `elements()` yield `["d","b"]`. -/
theorem C6_scenario :
    elements exList5 10 = ["e", "d", "c", "b", "a"] ∧
    exList5.Head = some 4 ∧
    exList6.Tail = some 0 ∧
    elements exList7 10 = ["d", "c", "b"] ∧
    dataOf exList7 2 = "c" ∧
    elements exList8 10 = ["d", "b"] := by
  refine ⟨?_, ?_, ?_, ?_, ?_, ?_⟩ <;> rfl

/-- C7 (counterexample to the claim as stated): in the two-node list built
by two head-inserts, the claim's preconditions hold for the head node 1, yet
after `remove` its `Next` is not absent (it still references node 0). -/
theorem C7_cleared_counterexample :
    repOK (insert (newNode (insert (newNode (emptyState (0 : Nat)) 0 10) 0 none) 1 20) 1 none)
      [1, 0] ∧
    1 ∈ [1, 0] ∧
    ¬(nextOf (remove (insert (newNode (insert (newNode (emptyState (0 : Nat)) 0 10) 0 none) 1 20) 1 none) 1) 1 = none ∧
      prevOf (remove (insert (newNode (insert (newNode (emptyState (0 : Nat)) 0 10) 0 none) 1 20) 1 none) 1) 1 = none) := by
  exact ⟨by decide, by decide, by decide⟩

/-- C7 (amended): `remove(x)` does not clear the removed node's own links:
for every member `x` of a list in a valid state, the removed node's `Next`
and `Prev` after `remove(x)` are exactly what they were before the removal
(so a detached node can retain stale references into the list). -/
theorem C7_remove_keeps_links {α : Type} (s : DState α) (ids : List Nat) (x : Nat)
    (hrep : repOK s ids) (hx : x ∈ ids) :
    nextOf (remove s x) x = nextOf s x ∧ prevOf (remove s x) x = prevOf s x := by
  obtain ⟨hH, hT, hseg, hnd⟩ := hrep
  obtain ⟨L1, L2, hids⟩ := List.append_of_mem hx
  subst hids
  obtain ⟨hxL1, hxL2, -, -, -⟩ := nodup_decomp L1 L2 x hnd
  rw [seg_middle] at hseg
  obtain ⟨-, hpx, hnx, -⟩ := hseg
  cases hp : prevOf s x with
  | none =>
      cases hn : nextOf s x with
      | none =>
          rw [remove_of_none_none s x hp hn]
          exact ⟨by simp [hn], by simp [hp]⟩
      | some m =>
          have hm : m ∈ L2 := by
            rw [hn] at hnx
            rcases firstO_mem L2 none m hnx.symm with h' | h'
            · exact absurd h' (by simp)
            · exact h'
          have hxm : x ≠ m := fun hc => hxL2 (hc ▸ hm)
          rw [remove_of_none_some s x m hp hn]
          exact ⟨by simp [hn], by simp [hxm, hp]⟩
  | some p =>
      have hpmem : p ∈ L1 := by
        rw [hp] at hpx
        rcases lastO_mem L1 none p hpx.symm with h' | h'
        · exact absurd h' (by simp)
        · exact h'
      have hxp : x ≠ p := fun hc => hxL1 (hc ▸ hpmem)
      cases hn : nextOf s x with
      | none =>
          rw [remove_of_some_none s x p hp hn]
          exact ⟨by simp [hxp, hn], by simp [hp]⟩
      | some m =>
          have hm : m ∈ L2 := by
            rw [hn] at hnx
            rcases firstO_mem L2 none m hnx.symm with h' | h'
            · exact absurd h' (by simp)
            · exact h'
          have hxm : x ≠ m := fun hc => hxL2 (hc ▸ hm)
          rw [remove_of_some_some s x p m hp hn]
          exact ⟨by simp [hxp, hn], by simp [hxm, hp]⟩

/-- Witness for the amended C7 at the same two-node list. -/
theorem C7_remove_keeps_links_witness :
    repOK (insert (newNode (insert (newNode (emptyState (0 : Nat)) 0 10) 0 none) 1 20) 1 none)
      [1, 0] ∧
    1 ∈ [1, 0] ∧
    (nextOf (remove (insert (newNode (insert (newNode (emptyState (0 : Nat)) 0 10) 0 none) 1 20) 1 none) 1) 1 =
       nextOf (insert (newNode (insert (newNode (emptyState (0 : Nat)) 0 10) 0 none) 1 20) 1 none) 1 ∧
     prevOf (remove (insert (newNode (insert (newNode (emptyState (0 : Nat)) 0 10) 0 none) 1 20) 1 none) 1) 1 =
       prevOf (insert (newNode (insert (newNode (emptyState (0 : Nat)) 0 10) 0 none) 1 20) 1 none) 1) :=
  ⟨by decide, by decide,
    C7_remove_keeps_links
      (insert (newNode (insert (newNode (emptyState (0 : Nat)) 0 10) 0 none) 1 20) 1 none)
      [1, 0] 1 (by decide) (by decide)⟩

/-- C10: neither `insert` nor `remove` ever modifies the `Data` payload of
any node (and `elements` is a pure function of the state in this embedding:
it returns the payload sequence and cannot modify the heap at all). -/
theorem C10_payload_frame {α : Type} (s : DState α) (x i : Nat) (after : Option Nat) :
    dataOf (insert s x after) i = dataOf s i ∧
    dataOf (remove s x) i = dataOf s i := by
  constructor
  · unfold insert
    cases after <;> dsimp only <;> split <;> simp
  · unfold remove
    dsimp only
    split <;> split <;> simp

end dLinkedList

namespace NBTerror

/-- C8: `errStr` (the `describe` operation) fails with the undefined-code
error for every integer code outside the inclusive range returned by
`errRange`, and returns the warning label "Warning" for the minimum code of
the range. -/
theorem C8_describe_range (c : Int)
    (h : c < errRange.1 ∨ errRange.2 < c) :
    errStr c = Except.error "Undefined error code" ∧
    errStr errRange.1 = Except.ok "Warning" := by
  have hr : errRange = (1000, 1005) := by decide
  have h' : c < 1000 ∨ 1005 < c := by rw [hr] at h; exact h
  have hlook : lookupCode error_dict c = none := by
    simp only [error_dict, lookupCode]
    rw [if_neg (by omega), if_neg (by omega), if_neg (by omega), if_neg (by omega),
      if_neg (by omega), if_neg (by omega)]
  constructor
  · unfold errStr
    rw [hlook]
  · rfl

/-- Witness for C8 at the out-of-range code 2000. -/
theorem C8_describe_range_witness :
    ((2000 : Int) < errRange.1 ∨ errRange.2 < (2000 : Int)) ∧
    (errStr 2000 = Except.error "Undefined error code" ∧
     errStr errRange.1 = Except.ok "Warning") :=
  ⟨by decide, C8_describe_range 2000 (by decide)⟩

/-- C9: for every registered code `c` with label `L`, constructing an error
value from `c` and a detail string renders as `"<c>: <L>; <detail>."`, and
without a detail string as `"<c>: <L>."` with no trailing `"; ..."` part;
at code 1005 with the doctest's detail string this gives exactly the
doctest's rendering. -/
theorem C9_render (c : Int) (L : String)
    (h : lookupCode error_dict c = some L) :
    (∀ x, render c (some x) =
      Except.ok (toString c ++ ": " ++ L ++ "; " ++ x ++ ".")) ∧
    render c none = Except.ok (toString c ++ ": " ++ L ++ ".") ∧
    render 1005 (some "Mein Luftkissenfahrzeug ist voller Aale") =
      Except.ok "1005: Malformed Message; Mein Luftkissenfahrzeug ist voller Aale." := by
  refine ⟨?_, ?_, ?_⟩
  · intro x
    unfold render
    rw [h]
  · unfold render
    rw [h]
  · rfl

/-- Witness for C9 at the registered code 1002. -/
theorem C9_render_witness :
    lookupCode error_dict 1002 = some "NBT Semantic Error" ∧
    ((∀ x, render 1002 (some x) =
        Except.ok (toString (1002 : Int) ++ ": " ++ "NBT Semantic Error" ++ "; " ++ x ++ ".")) ∧
     render 1002 none =
       Except.ok (toString (1002 : Int) ++ ": " ++ "NBT Semantic Error" ++ ".") ∧
     render 1005 (some "Mein Luftkissenfahrzeug ist voller Aale") =
       Except.ok "1005: Malformed Message; Mein Luftkissenfahrzeug ist voller Aale.") :=
  ⟨by decide, C9_render 1002 "NBT Semantic Error" (by decide)⟩

end NBTerror
